import Mathlib

/-!
# Verification of `primordius` (KaiserWerk/primordius)

Shallow embedding of `primordius.go` and proofs about it.

The library merges configuration values from an ordered list of sources into a
target struct.  We embed:

* the `strconv` parsers the env source calls (`ParseInt`/`ParseUint` at base 10
  and bit size 64, `ParseBool`, and `ParseFloat` modelled symbolically),
* the reflection loop of `envSource.ToTarget` over a struct represented as a
  list of fields (exported fields, i.e. those with `CanSet`; `reflect` makes
  `Field(i)` always valid for a struct, so the `IsValid` guard never skips),
* `Primordius.Process` / `AddSource` / `New` / `NewWithReload` / `Stop` over
  sources modelled as state transformers (a Go `Source.ToTarget` mutates the
  target through the pointer and returns an optional error; partial mutations
  made before an error persist, so the model returns the new state together
  with the optional error).

Machine integers are modelled as `Int`/`Nat` with explicit two's-complement
truncation where `reflect.Value.SetInt`/`SetUint` convert a 64-bit parse result
to the field's width.
-/

set_option autoImplicit false

namespace Primordius

/-- Failed parse kinds of `strconv`: `ErrSyntax` or `ErrRange` (the values of
Go's `NumError.Err`). -/
inductive PErr where
  | errSyn
  | errRange
  deriving DecidableEq, Repr

/-- Go `error` values that the embedded code can return.
`invalidSpecification` is the package-level `ErrInvalidSpecification`;
`numError fn num e` models `*strconv.NumError{Func: fn, Num: num, Err: e}`;
`custom n` stands for an arbitrary error produced by a user-supplied source. -/
inductive GoError where
  | invalidSpecification
  | numError (fn : String) (num : String) (e : PErr)
  | custom (n : Nat)
  deriving DecidableEq, Repr

/-- Largest `uint64` value, `2^64 - 1`. -/
def uint64Max : Nat := 2 ^ 64 - 1

/-- Digit test for base 10, as in `strconv`'s per-byte switch. -/
def isDigit10 (c : Char) : Bool := '0' ≤ c && c ≤ '9'

/-- The digit-consuming loop of Go `strconv.ParseUint(s, 10, 64)`: any byte
outside `0-9` is a syntax error, and exceeding `uint64Max` is a range error
(Go detects the overflow via its cutoff test before/after each step, which for
base 10 is equivalent to the accumulated value exceeding `uint64Max`). -/
def parseUintCore : List Char → Nat → Except PErr Nat
  | [], n => .ok n
  | c :: cs, n =>
    if isDigit10 c then
      let n' := n * 10 + (c.toNat - 48)
      if n' > uint64Max then .error .errRange else parseUintCore cs n'
    else .error .errSyn

/-- Go `strconv.ParseUint(s, 10, 64)` (no sign, no underscores at base 10;
empty input is a syntax error).  Returns the parsed `Nat` on success. -/
def parseUint (s : String) : Except PErr Nat :=
  match s.data with
  | [] => .error .errSyn
  | cs => parseUintCore cs 0

/-- Go `strconv.ParseInt(s, 10, 64)`: an optional leading sign, then the
unsigned digit loop; the magnitude must fit in `int64`
(`n ≤ 2^63 - 1` when non-negative, `n ≤ 2^63` when negated). -/
def parseInt (s : String) : Except PErr Int :=
  match s.data with
  | [] => .error .errSyn
  | c :: cs =>
    let neg : Bool := c = '-'
    let ds : List Char := if c = '-' || c = '+' then cs else c :: cs
    match ds with
    | [] => .error .errSyn
    | _ =>
      match parseUintCore ds 0 with
      | .error e => .error e
      | .ok n =>
        if neg then
          if n > 2 ^ 63 then .error .errRange else .ok (-(n : Int))
        else
          if n ≥ 2 ^ 63 then .error .errRange else .ok (n : Int)

/-- Go `strconv.ParseBool`: accepts exactly
`1, t, T, TRUE, true, True` and `0, f, F, FALSE, false, False`. -/
def parseBool (s : String) : Except PErr Bool :=
  if s = "1" || s = "t" || s = "T" || s = "TRUE" || s = "true" || s = "True" then
    .ok true
  else if s = "0" || s = "f" || s = "F" || s = "FALSE" || s = "false" || s = "False" then
    .ok false
  else .error .errSyn

/-- Decimal-mantissa shape `digits [. digits] | . digits` followed by an
optional exponent `e|E [sign] digits`, used by `goFloatShape`. -/
def decMantissaExp (cs : List Char) : Bool :=
  let intPart := cs.takeWhile isDigit10
  let rest := cs.dropWhile isDigit10
  let afterFrac :=
    match rest with
    | '.' :: fs =>
      let frac := fs.takeWhile isDigit10
      if intPart.isEmpty && frac.isEmpty then none
      else some (fs.dropWhile isDigit10)
    | _ => if intPart.isEmpty then none else some rest
  match afterFrac with
  | none => false
  | some [] => true
  | some (e :: es) =>
    if e = 'e' || e = 'E' then
      let ds := match es with
        | s :: tl => if s = '+' || s = '-' then tl else es
        | [] => es
      !ds.isEmpty && ds.all isDigit10
    else false

/-- Syntactic acceptance of Go `strconv.ParseFloat(s, 64)`, modelled on the
common decimal forms: optional sign, then either a decimal mantissa with
optional exponent, or the specials `inf` / `infinity` (sign allowed) and `nan`
(no sign), case-insensitively.  (Hexadecimal floats and digit-separating
underscores, which Go also accepts, are outside this model; no claim depends
on the acceptance boundary.) -/
def goFloatShape (s : String) : Bool :=
  match s.data with
  | [] => false
  | c :: cs =>
    let signed := c = '+' || c = '-'
    let body := if signed then cs else c :: cs
    let low := String.mk (body.map Char.toLower)
    if low = "inf" || low = "infinity" then true
    else if !signed && low = "nan" then true
    else decMantissaExp body

/-- Go `strconv.ParseFloat(s, 64)`, modelled symbolically: on success the
floating-point value is represented by the accepted string itself (IEEE
rounding is not modelled; the claims only depend on which field is assigned
and on parse success/failure). -/
def parseFloat (s : String) : Except PErr String :=
  if goFloatShape s then .ok s else .error .errSyn

/-- The `reflect.Kind` of a struct field, restricted to the kinds
`envSource.ToTarget` distinguishes.  `iSliceU8` is a byte slice (the `Slice`
case calls `SetBytes`); `iStruct` is a nested struct; `iOther` is any further
kind (map, pointer, complex, ...), which like `iStruct` matches no case of the
switch. -/
inductive Kind where
  | iString
  | iInt | iInt8 | iInt16 | iInt32 | iInt64
  | iUint | iUint8 | iUint16 | iUint32 | iUint64
  | iBool
  | iFloat32 | iFloat64
  | iSliceU8
  | iStruct
  | iOther
  deriving DecidableEq, Repr

/-- Bit width used by `reflect.Value.SetInt` / `SetUint` when converting the
64-bit parse result to the field's type (Go's `int`/`uint` are 64-bit on the
64-bit platforms the library targets). -/
def Kind.width : Kind → Nat
  | .iInt8 | .iUint8 => 8
  | .iInt16 | .iUint16 => 16
  | .iInt32 | .iUint32 => 32
  | _ => 64

/-- Runtime value stored in a field.  `vFloat s w` is the symbolic float
obtained by parsing `s` at 64 bits and converting to width `w`;
`vOpaque n` stands for a value of struct or other unmodelled kind. -/
inductive Value where
  | vString (s : String)
  | vInt (n : Int)
  | vUint (n : Nat)
  | vBool (b : Bool)
  | vFloat (s : String) (w : Nat)
  | vBytes (s : String)
  | vOpaque (n : Nat)
  deriving DecidableEq, Repr

/-- One exported field of the target struct: its `env` tag value (`""` when the
tag is absent), its `reflect.Kind`, and its current value. -/
structure Field where
  tag : String
  kind : Kind
  value : Value
  deriving DecidableEq, Repr

/-- The process environment, as queried by `os.LookupEnv`. -/
def Env : Type := String → Option String

/-- Two's-complement truncation of an `Int` to `w` bits: the conversion
performed by `reflect.Value.SetInt` when storing an `int64` into a narrower
signed field. -/
def truncInt (w : Nat) (x : Int) : Int :=
  (x + 2 ^ (w - 1)) % ((2 : Int) ^ w) - 2 ^ (w - 1)

/-- Modular truncation of a `Nat` to `w` bits: the conversion performed by
`reflect.Value.SetUint` when storing a `uint64` into a narrower unsigned
field. -/
def truncUint (w : Nat) (x : Nat) : Nat := x % 2 ^ w


/-- The env source (`envSource` in the Go code): holds the prefix prepended to
every tag before the environment lookup (`es.prefix` in Go; named `pfx` here
because `prefix` is a Lean keyword). -/
structure envSource where
  pfx : String
  deriving DecidableEq, Repr

/-- The body of the per-field iteration of `envSource.ToTarget`: skip the field
when its tag is `""` or `"-"` or the variable `prefix ++ tag` is unset;
otherwise switch on the field's kind, parse with the 64-bit `strconv` parser of
the kind's family, and produce the value that `Set{String,Int,Uint,Bool,Float,
Bytes}` stores (with the width conversion those setters perform).  Kinds with
no case in the switch (`iStruct`, `iOther`) fall through and leave the value.
Returns the new field value, or the error `ToTarget` would return. -/
def envFieldStep (pfx : String) (env : Env) (f : Field) : Except GoError Value :=
  if f.tag = "" || f.tag = "-" then .ok f.value
  else
    match env (pfx ++ f.tag) with
    | none => .ok f.value
    | some val =>
      match f.kind with
      | .iString => .ok (.vString val)
      | .iInt | .iInt8 | .iInt16 | .iInt32 | .iInt64 =>
        match parseInt val with
        | .error e => .error (.numError "ParseInt" val e)
        | .ok v => .ok (.vInt (truncInt f.kind.width v))
      | .iUint | .iUint8 | .iUint16 | .iUint32 | .iUint64 =>
        match parseUint val with
        | .error e => .error (.numError "ParseUint" val e)
        | .ok v => .ok (.vUint (truncUint f.kind.width v))
      | .iBool =>
        match parseBool val with
        | .error e => .error (.numError "ParseBool" val e)
        | .ok v => .ok (.vBool v)
      | .iFloat32 | .iFloat64 =>
        match parseFloat val with
        | .error e => .error (.numError "ParseFloat" val e)
        | .ok v => .ok (.vFloat v f.kind.width)
      | .iSliceU8 => .ok (.vBytes val)
      | .iStruct => .ok f.value
      | .iOther => .ok f.value

/-- One field of the loop as a state transformer: on success the field holds
the stepped value; on error the field is returned unchanged (every parse error
occurs before the corresponding `Set` call). -/
def envProcessField (pfx : String) (env : Env) (f : Field) : Field × Option GoError :=
  match envFieldStep pfx env f with
  | .ok v => ({ f with value := v }, none)
  | .error e => (f, some e)

/-- The field loop of `envSource.ToTarget` over the struct's exported fields:
processes fields left to right and returns on the first error, leaving the
remaining fields untouched. -/
def envLoop (pfx : String) (env : Env) : List Field → List Field × Option GoError
  | [] => ([], none)
  | f :: fs =>
    match envProcessField pfx env f with
    | (f', some e) => (f' :: fs, some e)
    | (f', none) =>
      let r := envLoop pfx env fs
      (f' :: r.1, r.2)

/-- The dynamic argument passed to `ToTarget`, as `reflect` classifies it:
a pointer to a struct (whose exported fields we carry), a pointer to a
non-struct value, or a non-pointer value.  Non-struct payloads are opaque. -/
inductive SpecArg where
  | structPtr (fields : List Field)
  | nonStructPtr (payload : Nat)
  | nonPointer (payload : Nat)
  deriving DecidableEq, Repr

/-- Model of `envSource.ToTarget`: reject a non-pointer or a pointer to a non-struct
with `ErrInvalidSpecification`, otherwise run the field loop.  Returns the
argument's final state together with the returned error. -/
def envToTarget (es : envSource) (env : Env) : SpecArg → SpecArg × Option GoError
  | .nonPointer p => (.nonPointer p, some .invalidSpecification)
  | .nonStructPtr p => (.nonStructPtr p, some .invalidSpecification)
  | .structPtr fs =>
    let r := envLoop es.pfx env fs
    (.structPtr r.1, r.2)

universe u

/-- A registered `Source`, modelled by the behaviour of its `ToTarget` method:
a function from the target's state to the target's state after the call
together with the returned error.  (A Go source mutates the target through the
pointer even when it subsequently returns an error, so the new state is
produced in both cases.) -/
def SourceM (sigma : Type u) : Type u := sigma → sigma × Option GoError

/-- The `Primordius` aggregator struct.  `target` and `sources` are the data
`Process`/`AddSource` use; the remaining fields model the lifecycle state:
`tick` is the `*time.Ticker` (`none` = nil pointer, `some d` = ticker with
interval `d`), `tickerActive` whether that ticker is still running,
`cancelled` whether the background context has been cancelled, `onceUsed`
whether the `sync.Once` guarding `Stop` has fired, and `cf` the
`context.CancelFunc` (`none` models a nil function, whose call would panic;
`some c` a function that cancels a context iff `c`). -/
structure Prim (sigma : Type u) where
  target : sigma
  sources : List (SourceM sigma)
  tick : Option Nat
  tickerActive : Bool
  cancelled : Bool
  onceUsed : Bool
  cf : Option Bool

/-- Model of `New`: no ticker, and `cf` is set to the no-op function
(`func() {}`, "make sure cf is never nil to prevent panic"). -/
def Prim.new {sigma : Type u} (t : sigma) : Prim sigma :=
  ⟨t, [], none, false, false, false, some false⟩

/-- Model of `NewWithReload`: like `New` but with a running ticker of interval `d` and a
`cf` that cancels the background goroutine's context. -/
def Prim.newWithReload {sigma : Type u} (t : sigma) (d : Nat) : Prim sigma :=
  ⟨t, [], some d, true, false, false, some true⟩

/-- Model of `AddSource` (also reached through the `From*` helpers): append the source
to the end of the list. -/
def Prim.addSource {sigma : Type u} (p : Prim sigma) (s : SourceM sigma) : Prim sigma :=
  { p with sources := p.sources ++ [s] }

/-- The loop of `Primordius.Process`: call each source on the current target
state, in list order, returning the first non-nil error. -/
def processList {sigma : Type u} : List (SourceM sigma) → sigma → sigma × Option GoError
  | [], t => (t, none)
  | s :: ss, t =>
    match s t with
    | (t', some e) => (t', some e)
    | (t', none) => processList ss t'

/-- Model of `Primordius.Process` on the aggregator state. -/
def Prim.process {sigma : Type u} (p : Prim sigma) : sigma × Option GoError :=
  processList p.sources p.target

/-- The loop `processList` instrumented with the list of (0-based) positions of the
sources whose `ToTarget` the loop invokes, to state "each source is invoked
exactly once, in registration order"; `n` is the position of the first source
of the remaining list. -/
def processTraceAux {sigma : Type u} :
    List (SourceM sigma) → sigma → Nat → sigma × Option GoError × List Nat
  | [], t, _ => (t, none, [])
  | s :: ss, t, n =>
    match s t with
    | (t', some e) => (t', some e, [n])
    | (t', none) =>
      let r := processTraceAux ss t' (n + 1)
      (r.1, r.2.1, n :: r.2.2)

/-- Invocation-traced `Process` loop, positions counted from 0. -/
def processTrace {sigma : Type u} (ss : List (SourceM sigma)) (t : sigma) :
    sigma × Option GoError × List Nat :=
  processTraceAux ss t 0

/-- The state `runPrefix ss t i` is the target state after the first `i` sources have
been applied (ignoring errors): the state the `i`-th source is invoked on. -/
def runPrefix {sigma : Type u} (ss : List (SourceM sigma)) (t : sigma) (i : Nat) : sigma :=
  (ss.take i).foldl (fun x s => (s x).1) t

/-- A target state for merge claims: a finite-feeling map from field names to
values (total function so that unwritten fields keep their prior value). -/
def TargetMap : Type := String → Value

/-- Apply a source's writes to the target, in order (`Function.update`
models a struct-field store). -/
def applyWrites (ws : List (String × Value)) (t : TargetMap) : TargetMap :=
  ws.foldl (fun x kv => Function.update x kv.1 kv.2) t

/-- A source that writes the fields `ws` (in order) and then returns `e`:
the abstraction of any `Source` for the merge claims. -/
def writerSource (ws : List (String × Value)) (e : Option GoError) : SourceM TargetMap :=
  fun t => (applyWrites ws t, e)

/-- The last value written to field `k` by the write list `ws`
(later entries win), `none` when `ws` never writes `k`. -/
def lastWriteIn (ws : List (String × Value)) (k : String) : Option Value :=
  match ws with
  | [] => none
  | kv :: rest =>
    match lastWriteIn rest k with
    | some v => some v
    | none => if kv.1 = k then some kv.2 else none

/-- The value field `k` holds after all sources ran: the last write of the
last-registered source that writes `k`, `none` when no source writes `k`. -/
def lastWriteAll (wss : List (List (String × Value))) (k : String) : Option Value :=
  match wss with
  | [] => none
  | ws :: rest =>
    match lastWriteAll rest k with
    | some v => some v
    | none => lastWriteIn ws k

/-- A Go runtime panic (here only: calling a nil function value). -/
inductive Panic where
  | nilFunc
  deriving DecidableEq, Repr

/-- Model of `Primordius.Stop`: inside `once.Do`, call `cf` and stop the ticker when it
is non-nil.  A second call (or any call after the first) does nothing.
Calling a nil `cf` would panic, which the model surfaces as `.error`. -/
def Prim.stop {sigma : Type u} (p : Prim sigma) : Except Panic (Prim sigma) :=
  if p.onceUsed then .ok p
  else
    match p.cf with
    | none => .error .nilFunc
    | some c =>
      .ok { p with
              onceUsed := true
              cancelled := p.cancelled || c
              tickerActive := if p.tick.isSome then false else p.tickerActive }

/-- The kinds handled by a `strconv` parser in the switch of
`envSource.ToTarget` (claim C3's list: string, ints, uints, bool, floats). -/
def scalarKind (k : Kind) : Bool :=
  match k with
  | .iString | .iInt | .iInt8 | .iInt16 | .iInt32 | .iInt64
  | .iUint | .iUint8 | .iUint16 | .iUint32 | .iUint64
  | .iBool | .iFloat32 | .iFloat64 => true
  | _ => false

/-- A field is active when its tag is neither absent nor `"-"`. -/
def activeTag (f : Field) : Bool := !(f.tag = "" || f.tag = "-")

/-- Name of the `strconv` function for a kind family (the `Func` component of
the `NumError` the code propagates). -/
def kindFn (k : Kind) : String :=
  match k with
  | .iInt | .iInt8 | .iInt16 | .iInt32 | .iInt64 => "ParseInt"
  | .iUint | .iUint8 | .iUint16 | .iUint32 | .iUint64 => "ParseUint"
  | .iBool => "ParseBool"
  | .iFloat32 | .iFloat64 => "ParseFloat"
  | _ => ""

/-- Modelled from the spec, literal reading of claim C3's assignment clause:
the value "obtained by parsing the variable's string with the strconv parser
matching the field's kind" (string assigned verbatim), with no width
conversion after the parse. -/
def specStoreExact (k : Kind) (val : String) : Except PErr Value :=
  match k with
  | .iString => .ok (.vString val)
  | .iInt | .iInt8 | .iInt16 | .iInt32 | .iInt64 => (parseInt val).map .vInt
  | .iUint | .iUint8 | .iUint16 | .iUint32 | .iUint64 => (parseUint val).map .vUint
  | .iBool => (parseBool val).map .vBool
  | .iFloat32 | .iFloat64 => (parseFloat val).map (fun s => .vFloat s 64)
  | _ => .ok (.vOpaque 0)

/-- The amended assignment rule: parse with the 64-bit `strconv` parser of the
kind's family, then convert the result to the field's width exactly as
`reflect`'s setters do (two's-complement truncation for signed ints, modular
truncation for unsigned ints, width conversion for floats). -/
def specStore (k : Kind) (val : String) : Except PErr Value :=
  match k with
  | .iString => .ok (.vString val)
  | .iInt | .iInt8 | .iInt16 | .iInt32 | .iInt64 =>
    (parseInt val).map (fun v => .vInt (truncInt k.width v))
  | .iUint | .iUint8 | .iUint16 | .iUint32 | .iUint64 =>
    (parseUint val).map (fun v => .vUint (truncUint k.width v))
  | .iBool => (parseBool val).map .vBool
  | .iFloat32 | .iFloat64 => (parseFloat val).map (fun s => .vFloat s k.width)
  | _ => .ok (.vOpaque 0)

/-- Claim C3 as stated: after a successful `ToTarget`, every active scalar
field whose variable is set holds exactly the parse result of its variable
(and, via the success hypothesis, every such parse succeeded). -/
def claim3AsStated : Prop :=
  ∀ (pfx : String) (env : Env) (fs : List Field) (i : Nat) (f : Field) (val : String),
    (envLoop pfx env fs).2 = none →
    fs.get? i = some f → scalarKind f.kind → activeTag f →
    env (pfx ++ f.tag) = some val →
    ∃ v : Value, specStoreExact f.kind val = .ok v ∧
      (envLoop pfx env fs).1.get? i = some { f with value := v }

/-- A concrete environment for counterexamples and witnesses: only `X` is set,
to `300`. -/
def envX : Env := fun k => if k = "X" then some "300" else none

/-! ## Helper lemmas about the env-source field loop -/

theorem Field.eta_value (f : Field) : { f with value := f.value } = f := by
  cases f; rfl

theorem envProcessField_of_error {pfx : String} {env : Env} {f : Field} {e : GoError}
    (h : envFieldStep pfx env f = .error e) :
    envProcessField pfx env f = (f, some e) := by
  simp [envProcessField, h]

theorem envProcessField_of_ok {pfx : String} {env : Env} {f : Field} {v : Value}
    (h : envFieldStep pfx env f = .ok v) :
    envProcessField pfx env f = ({ f with value := v }, none) := by
  simp [envProcessField, h]

theorem envFieldStep_skip_tag {pfx : String} {env : Env} {f : Field}
    (h : f.tag = "" ∨ f.tag = "-") :
    envFieldStep pfx env f = .ok f.value := by
  rcases h with h | h <;> simp [envFieldStep, h]

theorem envFieldStep_skip_unset {pfx : String} {env : Env} {f : Field}
    (h : env (pfx ++ f.tag) = none) :
    envFieldStep pfx env f = .ok f.value := by
  by_cases ht : (f.tag = "" || f.tag = "-" : Bool) = true
  · simp [envFieldStep, ht]
  · simp [envFieldStep, ht, h]

theorem envFieldStep_struct {pfx : String} {env : Env} {f : Field}
    (h : f.kind = .iStruct) :
    envFieldStep pfx env f = .ok f.value := by
  by_cases ht : (f.tag = "" || f.tag = "-" : Bool) = true
  · simp [envFieldStep, ht]
  · cases hl : env (pfx ++ f.tag) <;> simp [envFieldStep, ht, hl, h]

/-- A field whose step leaves it unchanged is unchanged in the loop result,
whether or not an error occurs elsewhere. -/
theorem envLoop_preserves {pfx : String} {env : Env} :
    ∀ (fs : List Field) (i : Nat) (f : Field),
      fs.get? i = some f →
      (envProcessField pfx env f).1 = f →
      (envLoop pfx env fs).1.get? i = some f
  | [], i, f, h, _ => by simp at h
  | g :: fs, 0, f, h, hstep => by
    rw [List.get?_cons_zero] at h
    have hgf : g = f := by injection h
    cases hp : envProcessField pfx env g with
    | mk g' e =>
      have hg' : g' = f := by rw [← hgf, hp] at hstep; rw [← hgf]; exact hstep
      cases e <;> simp [envLoop, hp, hg']
  | g :: fs, i + 1, f, h, hstep => by
    rw [List.get?_cons_succ] at h
    cases hp : envProcessField pfx env g with
    | mk g' e =>
      cases e with
      | some err => simp only [envLoop, hp, List.get?_cons_succ]; exact h
      | none =>
        simp only [envLoop, hp]
        simpa using envLoop_preserves fs i f h hstep

/-- On success, every field of the result is the stepped original field, and
every step succeeded. -/
theorem envLoop_success_char {pfx : String} {env : Env} :
    ∀ (fs : List Field),
      (envLoop pfx env fs).2 = none →
      (∀ i, (envLoop pfx env fs).1.get? i
          = (fs.get? i).map (fun g => (envProcessField pfx env g).1)) ∧
      (∀ f ∈ fs, (envProcessField pfx env f).2 = none)
  | [] => by intro _; constructor
             · intro i; simp [envLoop]
             · intro f hf; simp at hf
  | g :: fs => by
    intro hok
    cases hp : envProcessField pfx env g with
    | mk g' e =>
      cases e with
      | some err => rw [envLoop, hp] at hok; simp at hok
      | none =>
        rw [envLoop, hp] at hok
        simp only at hok
        obtain ⟨ih1, ih2⟩ := envLoop_success_char fs hok
        constructor
        · intro i
          cases i with
          | zero => simp [envLoop, hp]
          | succ j => simp only [envLoop, hp]; simpa using ih1 j
        · intro f hf
          rcases List.mem_cons.mp hf with rfl | hmem
          · rw [hp]
          · exact ih2 f hmem

/-- On error, the loop stopped at the first failing field `i`: all earlier
steps succeeded, the result list is the processed prefix followed by the
untouched suffix from `i` on (the failing field included, since the parse
error occurs before any store), and the error is field `i`'s step error. -/
theorem envLoop_error_char {pfx : String} {env : Env} :
    ∀ (fs : List Field) (e : GoError),
      (envLoop pfx env fs).2 = some e →
      ∃ i f, fs.get? i = some f ∧ envFieldStep pfx env f = .error e ∧
        (∀ j, j < i → ∃ g, fs.get? j = some g ∧ (envProcessField pfx env g).2 = none) ∧
        (envLoop pfx env fs).1
          = (fs.take i).map (fun g => (envProcessField pfx env g).1) ++ fs.drop i
  | [], e => by intro h; simp [envLoop] at h
  | g :: fs, e => by
    intro h
    cases hs : envFieldStep pfx env g with
    | error e0 =>
      have hp := envProcessField_of_error hs
      rw [envLoop, hp] at h ⊢
      simp only at h
      have he : e0 = e := by injection h
      refine ⟨0, g, by simp, by rw [hs, he], ?_, ?_⟩
      · intro j hj; omega
      · simp
    | ok v =>
      have hp := envProcessField_of_ok hs
      rw [envLoop, hp] at h ⊢
      simp only at h
      obtain ⟨i, f, hget, hstep, hpre, hres⟩ := envLoop_error_char fs e h
      refine ⟨i + 1, f, by simpa using hget, hstep, ?_, ?_⟩
      · intro j hj
        cases j with
        | zero => exact ⟨g, by simp, by rw [hp]⟩
        | succ j0 =>
          obtain ⟨g0, hg0, hg0ok⟩ := hpre j0 (by omega)
          exact ⟨g0, by simpa using hg0, hg0ok⟩
      · simp only [List.take_succ_cons, List.map_cons, List.drop_succ_cons, List.cons_append]
        rw [hp]
        simpa using hres

/-- For an active scalar field whose variable is set, the step is exactly the
amended per-kind rule `specStore`, with the error wrapped as the matching
`strconv.NumError`. -/
theorem envFieldStep_scalar_char {pfx : String} {env : Env} {f : Field} {val : String}
    (hact : activeTag f = true) (hset : env (pfx ++ f.tag) = some val)
    (hsc : scalarKind f.kind = true) :
    envFieldStep pfx env f
      = (specStore f.kind val).mapError (fun pe => GoError.numError (kindFn f.kind) val pe) := by
  have ht : (f.tag = "" || f.tag = "-" : Bool) = false := by
    simpa [activeTag] using hact
  cases f with
  | mk tag kind value =>
    simp only at ht hset ⊢
    cases kind <;>
      simp_all [envFieldStep, specStore, kindFn, scalarKind, Except.mapError, Kind.width] <;>
      first
        | (cases parseInt val <;> simp [Except.map] <;> done)
        | (cases parseUint val <;> simp [Except.map] <;> done)
        | (cases parseBool val <;> simp [Except.map] <;> done)
        | (cases parseFloat val <;> simp [Except.map])

/-- Replacing a field whose step is a no-op by another no-op field does not
change the error the loop returns. -/
theorem envLoop_set_noop_err {pfx : String} {env : Env} :
    ∀ (fs : List Field) (i : Nat) (f g : Field),
      fs.get? i = some f →
      envProcessField pfx env f = (f, none) →
      envProcessField pfx env g = (g, none) →
      (envLoop pfx env (fs.set i g)).2 = (envLoop pfx env fs).2
  | [], i, f, g, h, _, _ => by simp at h
  | h0 :: fs, 0, f, g, h, hf, hg => by
    rw [List.get?_cons_zero] at h
    have : h0 = f := by injection h
    subst this
    simp [envLoop, hf, hg]
  | h0 :: fs, i + 1, f, g, h, hf, hg => by
    rw [List.get?_cons_succ] at h
    cases hp : envProcessField pfx env h0 with
    | mk h0' e =>
      cases e with
      | some err => simp [List.set_cons_succ, envLoop, hp]
      | none =>
        simp only [List.set_cons_succ, envLoop, hp]
        exact envLoop_set_noop_err fs i f g h hf hg

/-- A step error implies the field was active, its variable set, its kind
scalar, and the error is the correspondingly wrapped `specStore` error. -/
theorem envFieldStep_error_inv {pfx : String} {env : Env} {f : Field} {e : GoError}
    (h : envFieldStep pfx env f = .error e) :
    ∃ val pe, activeTag f = true ∧ env (pfx ++ f.tag) = some val ∧
      scalarKind f.kind = true ∧ specStore f.kind val = .error pe ∧
      e = .numError (kindFn f.kind) val pe := by
  by_cases hact : activeTag f = true
  · cases hset : env (pfx ++ f.tag) with
    | none => rw [envFieldStep_skip_unset hset] at h; cases h
    | some val =>
      by_cases hsc : scalarKind f.kind = true
      · rw [envFieldStep_scalar_char hact hset hsc] at h
        cases hps : specStore f.kind val with
        | error pe =>
          refine ⟨val, pe, hact, rfl, hsc, hps, ?_⟩
          rw [hps] at h
          simpa [Except.mapError] using h.symm
        | ok v => rw [hps] at h; simp [Except.mapError] at h
      · exfalso
        have ht : (f.tag = "" || f.tag = "-" : Bool) = false := by
          simpa [activeTag] using hact
        cases f with
        | mk tag kind value =>
          simp only at ht hset hsc
          cases kind <;> simp_all [envFieldStep, scalarKind]
  · have ht : f.tag = "" ∨ f.tag = "-" := by
      simp [activeTag] at hact
      by_cases h1 : f.tag = ""
      · exact Or.inl h1
      · exact Or.inr (hact h1)
    rw [envFieldStep_skip_tag ht] at h
    cases h

/-! ## Claim theorems: the environment-variable source -/

/-- C4: the env source populates only fields with a non-empty tag other than
`"-"` whose variable `prefix ++ tag` is set; a field that is untagged, tagged
`"-"`, or whose variable is unset keeps exactly its prior value, whatever
`ToTarget` returns. -/
theorem C4_env_frame (es : envSource) (env : Env) (fs : List Field) (i : Nat) (f : Field)
    (hget : fs.get? i = some f)
    (hskip : f.tag = "" ∨ f.tag = "-" ∨ env (es.pfx ++ f.tag) = none) :
    ∃ fs', envToTarget es env (.structPtr fs)
        = (.structPtr fs', (envLoop es.pfx env fs).2) ∧ fs'.get? i = some f := by
  have hstep : envFieldStep es.pfx env f = .ok f.value := by
    rcases hskip with h | h | h
    · exact envFieldStep_skip_tag (Or.inl h)
    · exact envFieldStep_skip_tag (Or.inr h)
    · exact envFieldStep_skip_unset h
  have hpf := envProcessField_of_ok hstep
  rw [Field.eta_value] at hpf
  refine ⟨(envLoop es.pfx env fs).1, rfl, ?_⟩
  exact envLoop_preserves fs i f hget (by rw [hpf])

/-- Closed witness for C4: an untagged int field keeps its default. -/
theorem C4_env_frame_witness :
    ∃ fs', envToTarget ⟨"P_"⟩ envX (.structPtr [⟨"", .iInt, .vInt 5⟩])
        = (.structPtr fs', (envLoop "P_" envX [⟨"", .iInt, .vInt 5⟩]).2) ∧
      fs'.get? 0 = some ⟨"", .iInt, .vInt 5⟩ :=
  C4_env_frame ⟨"P_"⟩ envX [⟨"", .iInt, .vInt 5⟩] 0 ⟨"", .iInt, .vInt 5⟩ rfl (Or.inl rfl)

/-- C6: a field of struct kind is left entirely unchanged (even when tagged
with a set variable), and erasing its tag changes nothing about the error the
loop returns, i.e. no error is ever on account of a struct field. -/
theorem C6_env_struct_field (pfx : String) (env : Env) (fs : List Field) (i : Nat) (f : Field)
    (hget : fs.get? i = some f) (hk : f.kind = .iStruct) :
    (envLoop pfx env fs).1.get? i = some f ∧
    (envLoop pfx env (fs.set i { f with tag := "" })).2 = (envLoop pfx env fs).2 := by
  have hstep : envFieldStep pfx env f = .ok f.value := envFieldStep_struct hk
  have hpf := envProcessField_of_ok hstep
  rw [Field.eta_value] at hpf
  have hg : envFieldStep pfx env { f with tag := "" } = .ok ({ f with tag := "" } : Field).value :=
    envFieldStep_skip_tag (Or.inl rfl)
  have hpg := envProcessField_of_ok hg
  rw [Field.eta_value] at hpg
  exact ⟨envLoop_preserves fs i f hget (by rw [hpf]),
         envLoop_set_noop_err fs i f { f with tag := "" } hget hpf hpg⟩

/-- Closed witness for C6: a tagged struct field whose variable is set is
untouched and causes no error. -/
theorem C6_env_struct_field_witness :
    (envLoop "" envX [⟨"X", .iStruct, .vOpaque 3⟩]).1.get? 0 = some ⟨"X", .iStruct, .vOpaque 3⟩ ∧
    (envLoop "" envX ([⟨"X", .iStruct, .vOpaque 3⟩].set 0 ⟨"", .iStruct, .vOpaque 3⟩)).2
      = (envLoop "" envX [⟨"X", .iStruct, .vOpaque 3⟩]).2 :=
  C6_env_struct_field "" envX [⟨"X", .iStruct, .vOpaque 3⟩] 0 ⟨"X", .iStruct, .vOpaque 3⟩ rfl rfl

/-- C8: a non-pointer argument, or a pointer to a non-struct, makes `ToTarget`
return `ErrInvalidSpecification` with the argument completely unchanged. -/
theorem C8_invalid_specification (es : envSource) (env : Env) (a : SpecArg)
    (h : ∀ fs, a ≠ .structPtr fs) :
    envToTarget es env a = (a, some .invalidSpecification) := by
  cases a with
  | structPtr fs => exact absurd rfl (h fs)
  | nonStructPtr p => rfl
  | nonPointer p => rfl

/-- Closed witness for C8: a non-pointer argument is rejected unchanged. -/
theorem C8_invalid_specification_witness :
    envToTarget ⟨"P_"⟩ envX (.nonPointer 7) = (.nonPointer 7, some .invalidSpecification) :=
  C8_invalid_specification ⟨"P_"⟩ envX (.nonPointer 7) (fun fs h => by cases h)

/-- C9: when the loop returns a parse error, it stopped at the first failing
field `i`: every earlier field was stepped (successfully) and the result is
that processed prefix followed by the untouched fields from `i` on — the
failing field itself included, since the error occurs before the store. -/
theorem C9_env_error_prefix (pfx : String) (env : Env) (fs : List Field) (e : GoError)
    (h : (envLoop pfx env fs).2 = some e) :
    ∃ i f, fs.get? i = some f ∧ envFieldStep pfx env f = .error e ∧
      (∀ j, j < i → ∃ g, fs.get? j = some g ∧ (envProcessField pfx env g).2 = none) ∧
      (envLoop pfx env fs).1
        = (fs.take i).map (fun g => (envProcessField pfx env g).1) ++ fs.drop i :=
  envLoop_error_char fs e h

/-- Closed witness for C9: int field parsed before a failing bool field, a
string field after it untouched. -/
theorem C9_env_error_prefix_witness :
    ∃ i f,
      [(⟨"X", .iInt, .vInt 0⟩ : Field), ⟨"X", .iBool, .vBool false⟩,
        ⟨"X", .iString, .vString "keep"⟩].get? i = some f ∧
      envFieldStep "" envX f = .error (.numError "ParseBool" "300" .errSyn) ∧
      (∀ j, j < i → ∃ g,
        [(⟨"X", .iInt, .vInt 0⟩ : Field), ⟨"X", .iBool, .vBool false⟩,
          ⟨"X", .iString, .vString "keep"⟩].get? j = some g ∧
        (envProcessField "" envX g).2 = none) ∧
      (envLoop "" envX [⟨"X", .iInt, .vInt 0⟩, ⟨"X", .iBool, .vBool false⟩,
          ⟨"X", .iString, .vString "keep"⟩]).1
        = ([(⟨"X", .iInt, .vInt 0⟩ : Field), ⟨"X", .iBool, .vBool false⟩,
            ⟨"X", .iString, .vString "keep"⟩].take i).map
              (fun g => (envProcessField "" envX g).1)
          ++ [(⟨"X", .iInt, .vInt 0⟩ : Field), ⟨"X", .iBool, .vBool false⟩,
              ⟨"X", .iString, .vString "keep"⟩].drop i :=
  C9_env_error_prefix "" envX
    [⟨"X", .iInt, .vInt 0⟩, ⟨"X", .iBool, .vBool false⟩, ⟨"X", .iString, .vString "keep"⟩]
    (.numError "ParseBool" "300" .errSyn) (by decide)

/-- C3 (amended): for every active field of string / int / uint / bool / float
kind whose variable `prefix ++ tag` is set, a successful `ToTarget` leaves the
field holding the variable's string parsed by the 64-bit `strconv` parser of
the kind's family and converted to the field's width (string verbatim); and
any error `ToTarget` returns is the `strconv` error of such a field's parse,
wrapped in the matching `NumError`. -/
theorem C3_env_scalar_assign (pfx : String) (env : Env) (fs : List Field) :
    ((envLoop pfx env fs).2 = none →
      ∀ i f val, fs.get? i = some f → scalarKind f.kind = true → activeTag f = true →
        env (pfx ++ f.tag) = some val →
        ∃ v, specStore f.kind val = .ok v ∧
          (envLoop pfx env fs).1.get? i = some { f with value := v }) ∧
    (∀ e, (envLoop pfx env fs).2 = some e →
      ∃ i f val pe, fs.get? i = some f ∧ activeTag f = true ∧
        env (pfx ++ f.tag) = some val ∧ scalarKind f.kind = true ∧
        specStore f.kind val = .error pe ∧
        e = .numError (kindFn f.kind) val pe) := by
  constructor
  · intro hok i f val hget hsc hact hset
    obtain ⟨hchar, hall⟩ := envLoop_success_char fs hok
    have hstep := envFieldStep_scalar_char hact hset hsc
    cases hps : specStore f.kind val with
    | error pe =>
      exfalso
      rw [hps] at hstep
      have hmem : f ∈ fs := List.get?_mem hget
      have := hall f hmem
      rw [envProcessField_of_error (by simpa [Except.mapError] using hstep)] at this
      exact Option.noConfusion this
    | ok v =>
      rw [hps] at hstep
      refine ⟨v, rfl, ?_⟩
      have := hchar i
      rw [hget] at this
      rw [this]
      simp only [Option.map_some']
      rw [envProcessField_of_ok (by simpa [Except.mapError] using hstep)]
  · intro e he
    obtain ⟨i, f, hget, hstep, _, _⟩ := envLoop_error_char fs e he
    obtain ⟨val, pe, hact, hset, hsc, hps, hwrap⟩ := envFieldStep_error_inv hstep
    exact ⟨i, f, val, pe, hget, hact, hset, hsc, hps, hwrap⟩

/-- Closed witness for C3: an `int8` field with variable `X=300` is assigned
`truncInt 8 300 = 44` on a successful run. -/
theorem C3_env_scalar_assign_witness :
    ∃ v, specStore Kind.iInt8 "300" = .ok v ∧
      (envLoop "" envX [⟨"X", .iInt8, .vInt 0⟩]).1.get? 0
        = some { (⟨"X", .iInt8, .vInt 0⟩ : Field) with value := v } :=
  (C3_env_scalar_assign "" envX [⟨"X", .iInt8, .vInt 0⟩]).1 (by decide)
    0 ⟨"X", .iInt8, .vInt 0⟩ "300" rfl rfl rfl (by decide)

/-- C3 as stated is false: with `X=300`, an `int8` field is stored as `44`
(the two's-complement truncation `reflect.Value.SetInt` performs), not as the
parse result `300` — and the width-matched parse ParseInt at bit size 8
would instead have failed with a range error, which `ToTarget` does not
return. -/
theorem C3_counterexample : ¬ claim3AsStated := by
  intro h
  obtain ⟨v, hv, hget⟩ :=
    h "" envX [⟨"X", .iInt8, .vInt 0⟩] 0 ⟨"X", .iInt8, .vInt 0⟩ "300"
      (by decide) rfl rfl rfl (by decide)
  have hv300 : v = Value.vInt 300 := by
    rw [show specStoreExact Kind.iInt8 "300" = Except.ok (Value.vInt 300) from rfl] at hv
    injection hv with h0
    exact h0.symm
  rw [hv300] at hget
  have : (envLoop "" envX [⟨"X", .iInt8, .vInt 0⟩]).1.get? 0
      = some (⟨"X", .iInt8, .vInt 44⟩ : Field) := by decide
  rw [this] at hget
  injection hget with h1
  have : Value.vInt 44 = Value.vInt 300 := congrArg Field.value h1
  simp at this

/-! ## Helper lemmas about the Process loop -/

/-- The traced loop agrees with the plain loop on final state and error. -/
theorem processTraceAux_agree {sigma : Type u} :
    ∀ (ss : List (SourceM sigma)) (t : sigma) (n : Nat),
      (processTraceAux ss t n).1 = (processList ss t).1 ∧
      (processTraceAux ss t n).2.1 = (processList ss t).2
  | [], t, n => ⟨rfl, rfl⟩
  | s :: ss, t, n => by
    cases hs : s t with
    | mk t' e =>
      cases e with
      | some err => simp [processTraceAux, processList, hs]
      | none =>
        simp only [processTraceAux, processList, hs]
        exact processTraceAux_agree ss t' (n + 1)

/-- Shifting the position counter shifts every recorded position. -/
theorem processTraceAux_shift {sigma : Type u} :
    ∀ (ss : List (SourceM sigma)) (t : sigma) (n : Nat),
      (processTraceAux ss t n).2.2 = ((processTraceAux ss t 0).2.2).map (· + n)
  | [], t, n => by simp [processTraceAux]
  | s :: ss, t, n => by
    cases hs : s t with
    | mk t' e =>
      cases e with
      | some err => simp [processTraceAux, hs]
      | none =>
        have lhs : (processTraceAux (s :: ss) t n).2.2
            = n :: (processTraceAux ss t' (n + 1)).2.2 := by
          simp [processTraceAux, hs]
        have rhs : (processTraceAux (s :: ss) t 0).2.2
            = 0 :: (processTraceAux ss t' (0 + 1)).2.2 := by
          simp [processTraceAux, hs]
        rw [lhs, rhs, List.map_cons, Nat.zero_add]
        congr 1
        rw [processTraceAux_shift ss t' (n + 1), processTraceAux_shift ss t' 1,
          List.map_map]
        exact List.map_congr_left fun a _ => by simp [Function.comp]; omega

/-- On success the loop invokes every source: starting at position `n` the
trace is `[n, n+1, ..., n+len-1]`, and the final state is the left fold of
the sources over the initial target. -/
theorem processTraceAux_success {sigma : Type u} :
    ∀ (ss : List (SourceM sigma)) (t : sigma) (n : Nat),
      (processList ss t).2 = none →
      processTraceAux ss t n
        = (ss.foldl (fun x s => (s x).1) t, none, (List.range ss.length).map (· + n))
  | [], t, n, _ => by simp [processTraceAux]
  | s :: ss, t, n, hok => by
    cases hs : s t with
    | mk t' e =>
      cases e with
      | some err => rw [processList, hs] at hok; simp at hok
      | none =>
        rw [processList, hs] at hok
        have step : processTraceAux (s :: ss) t n
            = ((processTraceAux ss t' (n + 1)).1, (processTraceAux ss t' (n + 1)).2.1,
               n :: (processTraceAux ss t' (n + 1)).2.2) := by
          simp [processTraceAux, hs]
        rw [step, processTraceAux_success ss t' (n + 1) hok]
        simp only [List.foldl_cons, hs, List.length_cons, List.range_succ_eq_map,
          List.map_cons, List.map_map, Nat.zero_add, Prod.mk.injEq]
        refine ⟨trivial, trivial, ?_⟩
        congr 1
        exact List.map_congr_left fun a _ => by
          simp only [Function.comp_apply]
          omega

/-- Folding `AddSource` appends: registration keeps list order. -/
theorem foldl_addSource_sources {sigma : Type u} :
    ∀ (ss : List (SourceM sigma)) (p : Prim sigma),
      (ss.foldl Prim.addSource p).sources = p.sources ++ ss
  | [], p => by simp
  | s :: ss, p => by
    rw [List.foldl_cons, foldl_addSource_sources ss]
    simp [Prim.addSource]

/-- Pointwise value of `applyWrites`: the last write to `k` wins, and an
unwritten `k` keeps the prior value. -/
theorem applyWrites_apply :
    ∀ (ws : List (String × Value)) (t : TargetMap) (k : String),
      applyWrites ws t k = (lastWriteIn ws k).getD (t k)
  | [], t, k => rfl
  | kv :: ws, t, k => by
    rw [show applyWrites (kv :: ws) t = applyWrites ws (Function.update t kv.1 kv.2) from rfl]
    rw [applyWrites_apply ws _ k]
    cases hl : lastWriteIn ws k with
    | some v => simp [lastWriteIn, hl]
    | none =>
      simp only [lastWriteIn, hl, Function.update_apply]
      by_cases hk : kv.1 = k
      · simp [hk]
      · have : ¬ k = kv.1 := fun h => hk h.symm
        simp [hk, this]

/-- A write list that never writes `k` has no last write to `k`. -/
theorem lastWriteIn_eq_none :
    ∀ (ws : List (String × Value)) (k : String),
      k ∉ ws.map Prod.fst → lastWriteIn ws k = none
  | [], k, _ => rfl
  | kv :: ws, k, h => by
    have h1 : kv.1 ≠ k := by
      intro hk; exact h (by simp [hk])
    have h2 : k ∉ ws.map Prod.fst := by
      intro hm; exact h (by simp [hm])
    simp [lastWriteIn, lastWriteIn_eq_none ws k h2, h1]

/-! ## Claim theorems: Process, AddSource, Stop -/

/-- C1: sources registered through `AddSource` end up in the list in
registration order; a successful `Process` invokes each source exactly once,
in that order, on the shared target (final state = left fold of the sources);
hence for writer sources, a field written by several sources ends up with the
value written by the last-registered source that writes it. -/
theorem C1_process_order_and_last_wins :
    (∀ (sigma : Type) (t : sigma) (ss : List (SourceM sigma)),
      (ss.foldl Prim.addSource (Prim.new t)).sources = ss) ∧
    (∀ (sigma : Type) (ss : List (SourceM sigma)) (t : sigma),
      (processList ss t).2 = none →
      processTrace ss t = (ss.foldl (fun x s => (s x).1) t, none, List.range ss.length)) ∧
    (∀ (wss : List (List (String × Value))) (t : TargetMap) (k : String),
      (processList (wss.map (fun ws => writerSource ws none)) t).1 k
        = (lastWriteAll wss k).getD (t k)) := by
  refine ⟨?_, ?_, ?_⟩
  · intro sigma t ss
    rw [foldl_addSource_sources]
    rfl
  · intro sigma ss t hok
    rw [processTrace, processTraceAux_success ss t 0 hok]
    simp
  · intro wss t k
    induction wss generalizing t with
    | nil => simp [processList, lastWriteAll]
    | cons ws rest ih =>
      have hstep : processList ((ws :: rest).map fun w => writerSource w none) t
          = processList (rest.map fun w => writerSource w none) (applyWrites ws t) := rfl
      rw [hstep, ih, applyWrites_apply]
      cases h : lastWriteAll rest k with
      | some v => simp [lastWriteAll, h]
      | none => simp [lastWriteAll, h]

/-- Closed witness for C1: one incrementing source is invoked once; with two
writer sources touching field `a`, the second one's value wins. -/
theorem C1_process_order_and_last_wins_witness :
    processTrace [fun n => ((n + 1 : Nat), (none : Option GoError))] 0
      = (1, none, List.range 1) ∧
    (processList ([[("a", Value.vInt 1)], [("a", Value.vInt 2)]].map
        (fun ws => writerSource ws none)) (fun _ => Value.vInt 0)).1 "a"
      = (lastWriteAll [[("a", Value.vInt 1)], [("a", Value.vInt 2)]] "a").getD
          ((fun _ => Value.vInt 0) "a") :=
  ⟨C1_process_order_and_last_wins.2.1 Nat [fun n => (n + 1, none)] 0 rfl,
   C1_process_order_and_last_wins.2.2 [[("a", Value.vInt 1)], [("a", Value.vInt 2)]]
     (fun _ => Value.vInt 0) "a"⟩

/-- C2 induction core: if the first `i` sources succeed on the states they are
invoked on and source `i` then fails with `e`, `Process` returns exactly
(`si`'s post-state, `e`) and invokes exactly sources `0..i`. -/
theorem processList_first_error {sigma : Type u} :
    ∀ (ss : List (SourceM sigma)) (t : sigma) (i : Nat) (si : SourceM sigma) (e : GoError),
      ss.get? i = some si →
      (∀ j g, j < i → ss.get? j = some g → (g (runPrefix ss t j)).2 = none) →
      (si (runPrefix ss t i)).2 = some e →
      processList ss t = ((si (runPrefix ss t i)).1, some e) ∧
      (processTrace ss t).2.2 = List.range (i + 1)
  | [], t, i, si, e, hget, _, _ => by simp at hget
  | s :: ss, t, 0, si, e, hget, hpre, herr => by
    rw [List.get?_cons_zero] at hget
    have hsi : s = si := by injection hget
    subst hsi
    have herr0 : (s t).2 = some e := herr
    cases hs : s t with
    | mk t1 e1 =>
      have he1 : e1 = some e := by rw [hs] at herr0; exact herr0
      subst he1
      refine ⟨?_, ?_⟩
      · rw [processList, hs]
        have : (s (runPrefix (s :: ss) t 0)).1 = t1 := by rw [show runPrefix (s :: ss) t 0 = t from rfl, hs]
        rw [this]
      · rw [processTrace, processTraceAux, hs]
        rfl
  | s :: ss, t, i + 1, si, e, hget, hpre, herr => by
    rw [List.get?_cons_succ] at hget
    have h0 : (s (runPrefix (s :: ss) t 0)).2 = none := hpre 0 s (by omega) rfl
    cases hs : s t with
    | mk t1 e1 =>
      have he1 : e1 = none := by
        rw [show runPrefix (s :: ss) t 0 = t from rfl, hs] at h0; exact h0
      subst he1
      have hrun : ∀ j, runPrefix (s :: ss) t (j + 1) = runPrefix ss t1 j := by
        intro j
        rw [runPrefix, runPrefix, List.take_succ_cons, List.foldl_cons, hs]
      have hpre1 : ∀ j g, j < i → ss.get? j = some g → (g (runPrefix ss t1 j)).2 = none := by
        intro j g hj hg
        have := hpre (j + 1) g (by omega) (by rw [List.get?_cons_succ]; exact hg)
        rw [hrun j] at this
        exact this
      have herr1 : (si (runPrefix ss t1 i)).2 = some e := by rw [← hrun i]; exact herr
      obtain ⟨ih1, ih2⟩ := processList_first_error ss t1 i si e hget hpre1 herr1
      refine ⟨?_, ?_⟩
      · have hred : processList (s :: ss) t = processList ss t1 := by
          rw [processList, hs]
        rw [hred, ih1, hrun i]
      · have lhs : (processTrace (s :: ss) t).2.2 = 0 :: (processTraceAux ss t1 1).2.2 := by
          simp [processTrace, processTraceAux, hs]
        rw [lhs, processTraceAux_shift ss t1 1]
        rw [show processTraceAux ss t1 0 = processTrace ss t1 from rfl, ih2]
        rw [show List.range (i + 1 + 1) = 0 :: (List.range (i + 1)).map Nat.succ from
          List.range_succ_eq_map (i + 1)]

/-- C2: when source `i` is the first whose `ToTarget` fails, `Process` returns
exactly that error, does not invoke sources `i+1..n` (the trace is `0..i`),
and performs no rollback: the target is left exactly as `si` left it after
being invoked on the state produced by `s0..s(i-1)`. -/
theorem C2_process_first_error (sigma : Type) (ss : List (SourceM sigma)) (t : sigma)
    (i : Nat) (si : SourceM sigma) (e : GoError)
    (hget : ss.get? i = some si)
    (hpre : ∀ j g, j < i → ss.get? j = some g → (g (runPrefix ss t j)).2 = none)
    (herr : (si (runPrefix ss t i)).2 = some e) :
    processList ss t = ((si (runPrefix ss t i)).1, some e) ∧
    (processTrace ss t).2.2 = List.range (i + 1) :=
  processList_first_error ss t i si e hget hpre herr

/-- Closed witness for C2: of three sources, the second fails; the first's
increment persists, the second's halving persists, the third never runs. -/
theorem C2_process_first_error_witness :
    processList [fun n => ((n + 1 : Nat), (none : Option GoError)),
        fun n => (n * 2, some (.custom 9)), fun n => (n + 100, none)] 0
      = (2, some (.custom 9)) ∧
    (processTrace [fun n => ((n + 1 : Nat), (none : Option GoError)),
        fun n => (n * 2, some (.custom 9)), fun n => (n + 100, none)] 0).2.2
      = List.range 2 :=
  C2_process_first_error Nat
    [fun n => (n + 1, none), fun n => (n * 2, some (.custom 9)), fun n => (n + 100, none)]
    0 1 (fun n => (n * 2, some (.custom 9))) (.custom 9) rfl
    (fun j g hj hg => by
      have hj0 : j = 0 := by omega
      subst hj0
      have hg' : some (fun n => ((n + 1 : Nat), (none : Option GoError))) = some g := hg
      have hgg : (fun n => ((n + 1 : Nat), (none : Option GoError))) = g := by injection hg'
      subst hgg
      rfl)
    rfl

/-- C7: a field written by no registered source keeps its prior value across a
`Process` call (defaults survive), whether or not some source fails. -/
theorem C7_process_unwritten_frame :
    ∀ (srcs : List (List (String × Value) × Option GoError)) (t : TargetMap) (k : String),
      (∀ p ∈ srcs, k ∉ p.1.map Prod.fst) →
      (processList (srcs.map (fun p => writerSource p.1 p.2)) t).1 k = t k
  | [], _, _, _ => rfl
  | p :: srcs, t, k, h => by
    have hk : k ∉ p.1.map Prod.fst := h p (List.mem_cons_self p srcs)
    have happ : applyWrites p.1 t k = t k := by
      rw [applyWrites_apply, lastWriteIn_eq_none p.1 k hk]
      rfl
    cases he : p.2 with
    | some e =>
      have hstep : processList ((p :: srcs).map fun q => writerSource q.1 q.2) t
          = (applyWrites p.1 t, some e) := by
        simp [processList, writerSource, he]
      rw [hstep]
      exact happ
    | none =>
      have hstep : processList ((p :: srcs).map fun q => writerSource q.1 q.2) t
          = processList (srcs.map fun q => writerSource q.1 q.2) (applyWrites p.1 t) := by
        simp [processList, writerSource, he]
      rw [hstep, C7_process_unwritten_frame srcs (applyWrites p.1 t) k
        (fun q hq => h q (List.mem_cons_of_mem p hq)), happ]

/-- Closed witness for C7: a source that writes only `a` (and then errors)
leaves field `b` at its default. -/
theorem C7_process_unwritten_frame_witness :
    (processList ([([("a", Value.vInt 1)], some (GoError.custom 3))].map
        (fun p => writerSource p.1 p.2)) (fun _ => Value.vString "dflt")).1 "b"
      = (fun _ => Value.vString "dflt") "b" :=
  C7_process_unwritten_frame [([("a", Value.vInt 1)], some (.custom 3))]
    (fun _ => Value.vString "dflt") "b" (by decide)

/-- C10: on any instance whose `cf` is set (as `New` and `NewWithReload`
guarantee), `Stop` never panics, never touches target or sources, and a
second `Stop` is a no-op; on a `New` instance the only effect is consuming
the `sync.Once`. -/
theorem C10_stop_idempotent_safe (sigma : Type) (t : sigma) (p : Prim sigma)
    (hcf : p.cf.isSome = true) :
    (∃ q, p.stop = .ok q ∧ q.target = p.target ∧ q.sources = p.sources ∧ q.stop = .ok q) ∧
    (Prim.new t).stop = .ok ⟨t, [], none, false, false, true, some false⟩ := by
  constructor
  · cases hc : p.cf with
    | none => rw [hc] at hcf; simp at hcf
    | some c =>
      by_cases hn : p.onceUsed = true
      · exact ⟨p, by simp [Prim.stop, hn], rfl, rfl, by simp [Prim.stop, hn]⟩
      · have hstop : p.stop = .ok { p with onceUsed := true, cancelled := p.cancelled || c, tickerActive := (if p.tick.isSome then false else p.tickerActive) } := by
          simp [Prim.stop, hn, hc]
        exact ⟨_, hstop, rfl, rfl, by simp [Prim.stop]⟩
  · rfl

/-- Closed witness for C10, on a `NewWithReload` instance. -/
theorem C10_stop_idempotent_safe_witness :
    (∃ q, (Prim.newWithReload (0 : Nat) 5).stop = .ok q ∧
      q.target = (Prim.newWithReload (0 : Nat) 5).target ∧
      q.sources = (Prim.newWithReload (0 : Nat) 5).sources ∧ q.stop = .ok q) ∧
    (Prim.new (0 : Nat)).stop = .ok ⟨0, [], none, false, false, true, some false⟩ :=
  C10_stop_idempotent_safe Nat 0 (Prim.newWithReload 0 5) rfl

end Primordius
